import Mathlib

/-!
Shallow embedding of the core of the `miru` repository (Go): source types,
the disk cache, the result aggregator, the related-source extractor, the
source detector and the investigation engine.  Strings are modelled as
`List Char`; Go maps whose iteration order matters are modelled as
association lists whose list order stands for the iteration order.
-/

namespace Miru

/-- Go's `strings.Contains(s, sub)`: `sub` occurs as a contiguous substring of `s`. -/
def goContains (s sub : List Char) : Bool :=
  sub.isPrefixOf s ||
    match s with
    | [] => false
    | _ :: t => goContains t sub

/-- Go's `strings.HasPrefix(s, pre)`. -/
def goStartsWith (s pre : List Char) : Bool :=
  pre.isPrefixOf s

/-! ## Source types (src/unnamed/part_016, package `source`)

In Go, `type Type string`; the type is an open string type with named
constants, so the embedding keeps `String`. -/

/-- Embeds `source.Type` (a Go string type). -/
abbrev SourceType := String

/-- `source.TypeGoPkgDev`. -/
def TypeGoPkgDev : SourceType := "pkg.go.dev"
/-- `source.TypeJSR`. -/
def TypeJSR : SourceType := "jsr.io"
/-- `source.TypeNPM`. -/
def TypeNPM : SourceType := "npmjs.com"
/-- `source.TypeCratesIO`. -/
def TypeCratesIo : SourceType := "crates.io"
/-- `source.TypeRubyGems`. -/
def TypeRubyGems : SourceType := "rubygems.org"
/-- `source.TypePyPI`. -/
def TypePyPI : SourceType := "pypi.org"
/-- `source.TypePackagist`. -/
def TypePackagist : SourceType := "packagist.org"
/-- `source.TypeGitHub`. -/
def TypeGitHub : SourceType := "github.com"
/-- `source.TypeGitLab`. -/
def TypeGitLab : SourceType := "gitlab.com"
/-- `source.TypeDocumentation`. -/
def TypeDocumentation : SourceType := "documentation"
/-- `source.TypeHomepage`. -/
def TypeHomepage : SourceType := "homepage"
/-- `source.TypeUnknown`. -/
def TypeUnknown : SourceType := ""

/-- Embeds `source.Type.IsRegistry`: the Go `switch` over the seven registry
constants, `default: return false`. -/
def IsRegistry (s : SourceType) : Bool :=
  s == TypeGoPkgDev || s == TypeJSR || s == TypeNPM || s == TypeCratesIo ||
    s == TypeRubyGems || s == TypePyPI || s == TypePackagist

/-- Embeds `source.Type.IsRepository`: the Go `switch` over the two repository
constants, `default: return false`. -/
def IsRepository (s : SourceType) : Bool :=
  s == TypeGitHub || s == TypeGitLab

/-- Embeds `source.Type.IsDocumentation`. -/
def IsDocumentation (s : SourceType) : Bool :=
  s == TypeGoPkgDev || s == TypeJSR

/-! ## Cache key normalization (src/api/cache/cache.go, `normalizeKey`) -/

/-- The character test inside the `strings.Map` closure of `normalizeKey`:
alphanumeric, hyphen, underscore, dot or slash. -/
def allowedRune (r : Char) : Bool :=
  ((('a' : Char) ≤ r && r ≤ ('z' : Char)) ||
    (('A' : Char) ≤ r && r ≤ ('Z' : Char)) ||
    (('0' : Char) ≤ r && r ≤ ('9' : Char)) ||
    r == '-' || r == '_' || r == '.' || r == '/')

/-- One pass of Go's `strings.ReplaceAll(s, cc, c)` for a two-character
pattern `cc` made of the same character `c`: scan left to right, replacing
each non-overlapping occurrence of `c,c` by a single `c`. -/
def replaceAll2 (c : Char) : List Char → List Char
  | [] => []
  | [a] => [a]
  | a :: b :: rest =>
      if a = c ∧ b = c then c :: replaceAll2 c rest
      else a :: replaceAll2 c (b :: rest)

/-- Go's `strings.Contains(s, cc)` for the two-character pattern `c,c`. -/
def hasPair (c : Char) : List Char → Bool
  | a :: b :: rest => (a = c && b = c) || hasPair c (b :: rest)
  | _ => false

theorem replaceAll2_length_le (c : Char) :
    ∀ s : List Char, (replaceAll2 c s).length ≤ s.length := by
  intro s
  induction s using replaceAll2.induct c with
  | case1 => simp [replaceAll2]
  | case2 a => simp [replaceAll2]
  | case3 a b rest h ih =>
      simp only [replaceAll2, if_pos h, List.length_cons]
      omega
  | case4 a b rest h ih =>
      simp only [replaceAll2, if_neg h, List.length_cons] at ih ⊢
      omega

theorem replaceAll2_length_lt (c : Char) :
    ∀ s : List Char, hasPair c s = true → (replaceAll2 c s).length < s.length := by
  intro s
  induction s using replaceAll2.induct c with
  | case1 => simp [hasPair]
  | case2 a => simp [hasPair]
  | case3 a b rest h ih =>
      intro _
      simp only [replaceAll2, if_pos h, List.length_cons]
      have := replaceAll2_length_le c rest
      omega
  | case4 a b rest h ih =>
      intro hpair
      simp only [replaceAll2, if_neg h, List.length_cons]
      have hp : hasPair c (b :: rest) = true := by
        simp only [hasPair, Bool.or_eq_true, Bool.and_eq_true, decide_eq_true_eq] at hpair ⊢
        rcases hpair with ⟨h1, h2⟩ | h2
        · exact absurd ⟨h1, h2⟩ h
        · exact h2
      have := ih hp
      simp only [List.length_cons] at this ⊢
      omega

/-- The `for strings.Contains(normalized, cc) { normalized = strings.ReplaceAll(normalized, cc, c) }`
loop of `normalizeKey`, for the two-character pattern `c,c`. -/
def collapseLoop (c : Char) (s : List Char) : List Char :=
  if h : hasPair c s = true then collapseLoop c (replaceAll2 c s) else s
termination_by s.length
decreasing_by exact replaceAll2_length_lt c s h

/-- Embeds `normalizeKey` of src/api/cache/cache.go: map disallowed runes to
underscore, then collapse runs of dots, then collapse runs of slashes. -/
def normalizeKey (key : List Char) : List Char :=
  let normalized := key.map (fun r => if allowedRune r then r else '_')
  let n1 := collapseLoop '.' normalized
  collapseLoop '/' n1

/-- The Go-string form of `normalizeKey`, as used by `Cache.GetOrSet`. -/
def normalizeKeyS (key : String) : String :=
  String.mk (normalizeKey key.data)

theorem hasPair_collapseLoop_self (c : Char) (s : List Char) :
    hasPair c (collapseLoop c s) = false := by
  induction s using collapseLoop.induct c with
  | case1 s h ih =>
      rw [collapseLoop, dif_pos h]
      exact ih
  | case2 s h =>
      rw [collapseLoop, dif_neg h]
      exact Bool.not_eq_true _ ▸ h

theorem collapseLoop_eq_self (c : Char) (s : List Char) (h : hasPair c s = false) :
    collapseLoop c s = s := by
  rw [collapseLoop, dif_neg]
  simp [h]

theorem mem_replaceAll2 (c : Char) :
    ∀ s : List Char, ∀ x, x ∈ replaceAll2 c s → x ∈ s := by
  intro s
  induction s using replaceAll2.induct c with
  | case1 => simp [replaceAll2]
  | case2 a => simp [replaceAll2]
  | case3 a b rest h ih =>
      intro x hx
      rw [replaceAll2, if_pos h] at hx
      rcases List.mem_cons.mp hx with hx | hx
      · exact hx ▸ h.1 ▸ List.mem_cons_self a _
      · exact List.mem_cons_of_mem a (List.mem_cons_of_mem b (ih x hx))
  | case4 a b rest h ih =>
      intro x hx
      rw [replaceAll2, if_neg h] at hx
      rcases List.mem_cons.mp hx with hx | hx
      · exact hx ▸ List.mem_cons_self a _
      · exact List.mem_cons_of_mem a (ih x hx)

theorem mem_collapseLoop (c : Char) (s : List Char) :
    ∀ x, x ∈ collapseLoop c s → x ∈ s := by
  induction s using collapseLoop.induct c with
  | case1 s h ih =>
      intro x hx
      rw [collapseLoop, dif_pos h] at hx
      exact mem_replaceAll2 c s x (ih x hx)
  | case2 s h =>
      intro x hx
      rwa [collapseLoop, dif_neg h] at hx

theorem hasPair_cons_tail {d x : Char} {t : List Char}
    (h : hasPair d (x :: t) = false) : hasPair d t = false := by
  cases t with
  | nil => rfl
  | cons y ys =>
      simp only [hasPair, Bool.or_eq_false_iff] at h
      exact h.2

theorem hasPair_cons_of_ne {d x : Char} {t : List Char}
    (hx : x ≠ d) (h : hasPair d t = false) : hasPair d (x :: t) = false := by
  cases t with
  | nil => rfl
  | cons y ys =>
      simp only [hasPair, Bool.or_eq_false_iff, Bool.and_eq_false_iff]
      exact ⟨Or.inl (by simp [hx]), h⟩

theorem replaceAll2_cons_head (c b : Char) (rest : List Char) :
    ∃ t, replaceAll2 c (b :: rest) = b :: t := by
  cases rest with
  | nil => exact ⟨[], rfl⟩
  | cons y ys =>
      by_cases h : b = c ∧ y = c
      · refine ⟨replaceAll2 c ys, ?_⟩
        rw [replaceAll2, if_pos h, h.1]
      · exact ⟨replaceAll2 c (y :: ys), by rw [replaceAll2, if_neg h]⟩

theorem hasPair_replaceAll2_of_ne (c d : Char) (hdc : d ≠ c) :
    ∀ s : List Char, hasPair d s = false → hasPair d (replaceAll2 c s) = false := by
  intro s
  induction s using replaceAll2.induct c with
  | case1 => intro _; rfl
  | case2 a => intro _; rfl
  | case3 a b rest h ih =>
      intro hs
      rw [replaceAll2, if_pos h]
      have hrest : hasPair d rest = false :=
        hasPair_cons_tail (hasPair_cons_tail hs)
      exact hasPair_cons_of_ne (fun hc => hdc hc.symm) (ih hrest)
  | case4 a b rest h ih =>
      intro hs
      rw [replaceAll2, if_neg h]
      have htail : hasPair d (b :: rest) = false := hasPair_cons_tail hs
      have hout := ih htail
      obtain ⟨t, ht⟩ := replaceAll2_cons_head c b rest
      rw [ht] at hout ⊢
      simp only [hasPair, Bool.or_eq_false_iff, Bool.and_eq_false_iff,
        decide_eq_false_iff_not] at hs ⊢
      cases t with
      | nil => exact ⟨hs.1, rfl⟩
      | cons z zs =>
          rcases hs with ⟨hab, _⟩
          exact ⟨hab, hout⟩

theorem hasPair_collapseLoop_of_ne (c d : Char) (hdc : d ≠ c) (s : List Char) :
    hasPair d s = false → hasPair d (collapseLoop c s) = false := by
  induction s using collapseLoop.induct c with
  | case1 s h ih =>
      intro hs
      rw [collapseLoop, dif_pos h]
      exact ih (hasPair_replaceAll2_of_ne c d hdc s hs)
  | case2 s h =>
      intro hs
      rwa [collapseLoop, dif_neg h]

theorem map_id_of_allowed (s : List Char) (h : s.all allowedRune = true) :
    s.map (fun r => if allowedRune r then r else '_') = s := by
  induction s with
  | nil => rfl
  | cons a t ih =>
      simp only [List.all_cons, Bool.and_eq_true] at h
      simp [h.1, ih h.2]

theorem all_allowed_normalizeKey (k : List Char) :
    (normalizeKey k).all allowedRune = true := by
  unfold normalizeKey
  rw [List.all_eq_true]
  intro x hx
  have hx1 := mem_collapseLoop _ _ _ hx
  have hx2 := mem_collapseLoop _ _ _ hx1
  rw [List.mem_map] at hx2
  obtain ⟨r, _, hr⟩ := hx2
  by_cases ha : allowedRune r = true
  · rw [← hr]; simp [ha]
  · rw [← hr]; simp only [ha, Bool.false_eq_true, if_false]; decide

theorem hasPair_dot_normalizeKey (k : List Char) :
    hasPair '.' (normalizeKey k) = false := by
  unfold normalizeKey
  exact hasPair_collapseLoop_of_ne '/' '.' (by decide) _
    (hasPair_collapseLoop_self '.' _)

theorem hasPair_slash_normalizeKey (k : List Char) :
    hasPair '/' (normalizeKey k) = false := by
  unfold normalizeKey
  exact hasPair_collapseLoop_self '/' _

theorem normalizeKey_idempotent (k : List Char) :
    normalizeKey (normalizeKey k) = normalizeKey k := by
  conv_lhs => rw [normalizeKey]
  rw [map_id_of_allowed _ (all_allowed_normalizeKey k),
    collapseLoop_eq_self '.' _ (hasPair_dot_normalizeKey k),
    collapseLoop_eq_self '/' _ (hasPair_slash_normalizeKey k)]

/-! ## Cache (src/api/cache/cache.go)

The disk state is an association list from file path to stored entry
(`List.lookup` finds the most recent write because writes prepend).  Time is
a natural-number clock; `time.Since(entry.CreatedAt)` becomes `now -
entry.CreatedAt` and the TTL comparison is `<` as in the source.  The
generator `fn` is modelled by its outcome (`Except E T`); `saveEntry`'s
I/O is modelled by a `SaveOutcome` that distinguishes where it fails,
because `os.Create` truncates an existing file before `gob` encoding: a
failure in `os.MkdirAll` or `os.Create` leaves the file as it was, while a
failure during encoding leaves a truncated, undecodable file and so
destroys any prior entry at that path. -/

/-- Embeds `cache.Entry[T]`. -/
structure CEntry (T : Type) where
  value : T
  createdAt : Nat
deriving Repr, DecidableEq

/-- Embeds the `cache.Cache[T]` configuration: kind, directory, TTL. -/
structure CacheCfg where
  kind : String
  dir : String
  ttl : Nat
deriving Repr, DecidableEq

/-- The disk contents seen by one `Cache[T]`: path ↦ entry. -/
abbrev Store (T : Type) := List (String × CEntry T)

/-- The error returned by `Cache.GetOrSet`: either the generator's error or
the error of `saveEntry` (Go's `error` is modelled as `String`). -/
inductive CacheErr where
  | fromGen (e : String)
  | fromSave
deriving Repr, DecidableEq

/-- The full outcome of one `GetOrSet` call: the returned value, the returned
error (`none` = nil), the disk state afterwards, and whether `fn` ran. -/
structure GetOrSetOut (T : Type) where
  value : T
  err : Option CacheErr
  store : Store T
  generatorInvoked : Bool

/-- The cache file path `filepath.Join(c.dir, normalizedKey+"_"+c.kind+".gob")`. -/
def cachePath (c : CacheCfg) (key : String) : String :=
  c.dir ++ "/" ++ normalizeKeyS key ++ "_" ++ c.kind ++ ".gob"

/-- Embeds `Cache.loadEntry`: reading the file at `path`; present = decodable. -/
def loadEntry (store : Store T) (path : String) : Option (CEntry T) :=
  store.lookup path

/-- Embeds `Cache.saveEntry` on success: `os.Create` overwrites the file. -/
def saveEntry (store : Store T) (path : String) (e : CEntry T) : Store T :=
  (path, e) :: store

/-- How one run of `Cache.saveEntry` goes.  `os.MkdirAll` and `os.Create`
can fail with the file untouched; once `os.Create` has succeeded it has
truncated the file, so a failure in `gob` encoding (or the write behind
it) leaves an undecodable file. -/
inductive SaveOutcome where
  | ok
  | failBeforeCreate
  | failAfterCreate
deriving Repr, DecidableEq

/-- The disk after `os.Create` truncated the file at `path` and encoding
failed: no decodable entry remains there. -/
def eraseEntry (store : Store T) (path : String) : Store T :=
  store.filter (fun e => !(e.1 == path))

/-- Embeds `Cache.GetOrSet` of src/api/cache/cache.go.  `default` stands for
Go's zero value of `T`, returned when the generator fails.  On either
save-failure mode the source runs `return value, err`, so the call yields
the value together with the save error. -/
def GetOrSet [Inhabited T] (c : CacheCfg) (store : Store T) (now : Nat)
    (key : String) (gen : Except String T) (save : SaveOutcome)
    (forceUpdate : Bool) : GetOrSetOut T :=
  let path := cachePath c key
  let cached : Option T :=
    if forceUpdate then none
    else match loadEntry store path with
      | some entry => if now - entry.createdAt < c.ttl then some entry.value else none
      | none => none
  match cached with
  | some v => ⟨v, none, store, false⟩
  | none =>
      match gen with
      | .error e => ⟨default, some (.fromGen e), store, true⟩
      | .ok value =>
          let entry : CEntry T := ⟨value, now⟩
          match save with
          | .ok => ⟨value, none, saveEntry store path entry, true⟩
          | .failBeforeCreate => ⟨value, some .fromSave, store, true⟩
          | .failAfterCreate => ⟨value, some .fromSave, eraseEntry store path, true⟩

/-! ## Data model (src/api/source/data.go, relatedsource.go; Result in
src/unnamed/part_015)

`source.Reference`'s own declaration file is not in the tree, but its shape
`{Type, Path}` is fixed by `RelatedReference.ToSourceReference` and by every
use site.  `*url.URL` becomes `Option String` (`none` = nil pointer);
`error` fields become `Option String`. -/

/-- Embeds `source.Reference`. -/
structure Reference where
  type : SourceType
  path : String
deriving Repr, DecidableEq

/-- Embeds `source.RelatedReference`. -/
structure RelatedReference where
  type : SourceType
  path : String
  url : String
  fromField : String
deriving Repr, DecidableEq

/-- Embeds `RelatedReference.ToSourceReference`. -/
def ToSourceReference (s : RelatedReference) : Reference :=
  { type := s.type, path := if s.path ≠ "" then s.path else s.url }

/-- Embeds `source.Data`.  `Metadata` carries no behavior in the aggregator
and is dropped.  The zero value (failed fetch) has `source = ⟨"", ""⟩`,
`browserURL = none` and `contents = []`. -/
structure Data where
  source : Reference := ⟨TypeUnknown, ""⟩
  contents : List (String × String) := []
  browserURL : Option String := none
  fetchError : Option String := none
  fetchedAt : Nat := 0
  relatedSources : List RelatedReference := []
deriving Repr, DecidableEq

/-- Reading `data.Contents["README.md"]`: a Go map read that defaults to the
zero string when the key is absent or the map is nil. -/
def contentsGet (d : Data) (k : String) : String :=
  (d.contents.lookup k).getD ""

/-- Embeds `api.InitialQuery` (src/api/initialquery.go). -/
structure InitialQuery where
  sourceRef : Reference
  forceUpdate : Bool := false
deriving Repr, DecidableEq

/-- Embeds `api.Investigation`: the query plus `CollectedData
map[source.Type]source.Data`.  The Go map is embedded as an association
list; the list order stands for one possible iteration order of the map
(Go fixes no particular order). -/
structure Investigation where
  query : InitialQuery
  collectedData : List (SourceType × Data)
deriving Repr, DecidableEq

/-- Embeds `api.Link` (src/unnamed/part_015). -/
structure Link where
  type : SourceType
  url : Option String
deriving Repr, DecidableEq

/-- Embeds `api.Result` (src/unnamed/part_015). -/
structure Result where
  readme : String := ""
  initialQueryURL : Option String := none
  initialQueryType : SourceType := TypeUnknown
  links : List Link := []
deriving Repr, DecidableEq

/-- The `for _, data := range inv.CollectedData` loop body of `CreateResult`:
keep the longer README and append one link per entry. -/
def createLoop : String → List Link → List (SourceType × Data) → String × List Link
  | readme, links, [] => (readme, links)
  | readme, links, (_, data) :: rest =>
      let r := contentsGet data "README.md"
      let readme' := if r.length > readme.length then r else readme
      createLoop readme' (links ++ [⟨data.source.type, data.browserURL⟩]) rest

/-- Embeds `api.CreateResult` (src/unnamed/part_015): fold the collected
data in iteration order, then look up the initial query's type. -/
def CreateResult (inv : Investigation) : Result :=
  let (readme, links) := createLoop "" [] inv.collectedData
  let base : Result := { readme := readme, links := links }
  match inv.collectedData.lookup inv.query.sourceRef.type with
  | some data =>
      { base with initialQueryURL := data.browserURL,
                  initialQueryType := inv.query.sourceRef.type }
  | none => base

/-! ## A small regex engine

The extraction code of src/unnamed/part_009 is driven by `regexp`
patterns.  The patterns only use literals, character classes with
quantifiers, non-capturing alternations, optional groups and capture
groups, so the engine below implements exactly those constructs with Go's
leftmost-first match semantics (earliest start position wins; at each
choice point a backtracking search tries alternatives in order, greedy
quantifiers longest first).  Recursion is bounded by fuel; every call site
passes ample fuel for its input. -/

/-- Quantifier on a character class. -/
inductive Quant where
  | one
  | opt
  | plus
  | star
deriving Repr, DecidableEq

/-- Regex abstract syntax, restricted to the constructs the source uses. -/
inductive RElem where
  | lit : List Char → RElem
  | cls : Bool → List Char → Quant → RElem
  | alt : List (List RElem) → RElem
  | optg : List RElem → RElem
  | cap : Nat → List RElem → RElem
deriving Repr

/-- Character-class membership; the flag negates the class. -/
def clsMem (neg : Bool) (set : List Char) (ch : Char) : Bool :=
  if neg then !(set.contains ch) else set.contains ch

/-- First `some` in a list of options, in order. -/
def firstSome : List (Option α) → Option α
  | [] => none
  | some r :: _ => some r
  | none :: rest => firstSome rest

/-- A successful match: the input remaining after it and the captures. -/
abbrev MatchRes := List Char × List (Nat × List Char)

/-- Backtracking matcher: match `items` at the start of `s`, then hand the
remaining input and captures to the continuation `k`; alternatives are
tried in leftmost-first order and quantifiers greedily. -/
def matchSeq : Nat → List RElem → List Char → List (Nat × List Char) →
    (List Char → List (Nat × List Char) → Option MatchRes) → Option MatchRes
  | 0, _, _, _, _ => none
  | _ + 1, [], s, caps, k => k s caps
  | fuel + 1, .lit l :: rest, s, caps, k =>
      if l.isPrefixOf s then matchSeq fuel rest (s.drop l.length) caps k else none
  | fuel + 1, .cls neg set q :: rest, s, caps, k =>
      match q with
      | .one =>
          match s with
          | c :: s' => if clsMem neg set c then matchSeq fuel rest s' caps k else none
          | [] => none
      | .opt =>
          match s with
          | c :: s' =>
              if clsMem neg set c then
                firstSome [matchSeq fuel rest s' caps k, matchSeq fuel rest s caps k]
              else matchSeq fuel rest s caps k
          | [] => matchSeq fuel rest s caps k
      | .plus =>
          let n := (s.takeWhile (clsMem neg set)).length
          firstSome (((List.range n).map (fun j => n - j)).map
            (fun i => matchSeq fuel rest (s.drop i) caps k))
      | .star =>
          let n := (s.takeWhile (clsMem neg set)).length
          firstSome (((List.range (n + 1)).map (fun j => n - j)).map
            (fun i => matchSeq fuel rest (s.drop i) caps k))
  | fuel + 1, .alt alts :: rest, s, caps, k =>
      firstSome (alts.map (fun a => matchSeq fuel (a ++ rest) s caps k))
  | fuel + 1, .optg g :: rest, s, caps, k =>
      firstSome [matchSeq fuel (g ++ rest) s caps k, matchSeq fuel rest s caps k]
  | fuel + 1, .cap n g :: rest, s, caps, k =>
      matchSeq fuel g s caps (fun s' caps' =>
        matchSeq fuel rest s' ((n, s.take (s.length - s'.length)) :: caps') k)

/-- Match the whole regex at the start of `s`. -/
def matchHere (re : List RElem) (s : List Char) : Option MatchRes :=
  matchSeq (s.length + 1000) re s [] (fun s' caps => some (s', caps))

/-- One found match: its text and its captures. -/
structure Found where
  matched : List Char
  caps : List (Nat × List Char)
deriving Repr

/-- Capture group `n` of a match; Go reports absent groups as `""`. -/
def group (n : Nat) (f : Found) : List Char :=
  (f.caps.lookup n).getD []

/-- Leftmost match: try every start position from the left. -/
def reSearchAux (re : List RElem) : List Char → Option Found
  | [] =>
      match matchHere re [] with
      | some (_, caps) => some ⟨[], caps⟩
      | none => none
  | c :: t =>
      match matchHere re (c :: t) with
      | some (rem, caps) => some ⟨(c :: t).take ((c :: t).length - rem.length), caps⟩
      | none => reSearchAux re t

/-- `regexp.FindStringSubmatch`, reduced to: `some` group 1 on a match
(`len(matches) > 1` always holds for the source's patterns, which all have
at least one group), `none` when the regex does not match. -/
def findSubmatch1 (re : List RElem) (s : List Char) : Option (List Char) :=
  (reSearchAux re s).map (group 1)

/-- Offset of the leftmost match inside `s`, with the match itself. -/
def reSearchPos (re : List RElem) : List Char → Nat → Option (Nat × Found)
  | [], pos =>
      match matchHere re [] with
      | some (_, caps) => some (pos, ⟨[], caps⟩)
      | none => none
  | c :: t, pos =>
      match matchHere re (c :: t) with
      | some (rem, caps) => some (pos, ⟨(c :: t).take ((c :: t).length - rem.length), caps⟩)
      | none => reSearchPos re t (pos + 1)

/-- `regexp.FindAll*(s, -1)`: successive non-overlapping leftmost matches,
resuming right after each match (one character further for an empty match). -/
def findAll (re : List RElem) : Nat → List Char → List Found
  | 0, _ => []
  | fuel + 1, s =>
      match reSearchPos re s 0 with
      | none => []
      | some (pos, f) =>
          let step := pos + (if f.matched.length = 0 then 1 else f.matched.length)
          f :: findAll re fuel (s.drop step)

/-- `findAll` with enough fuel for its input. -/
def findAllIn (re : List RElem) (s : List Char) : List Found :=
  findAll re (s.length + 1) s

/-! ## Extraction patterns (src/unnamed/part_009, `sourcePatterns`)

Each Go regex literal is transcribed element by element.  RE2's `\s` is
the class `[\t\n\f\r ]`. -/

/-- RE2 whitespace class `\s`. -/
def wsChars : List Char := ['\t', '\n', '\x0C', '\x0D', ' ']

/-- A literal regex fragment. -/
def rlit (s : String) : RElem := .lit s.data

/-- The optional `s` of `https?`. -/
def optS : RElem := .cls false ['s'] .opt

/-- `(?:www\.)?`. -/
def optWWW : RElem := .optg [rlit "www."]

/-- `\[([^\]]+)\]\(([^)]+)\)` (mdPattern of `extractURLs`). -/
def mdPattern : List RElem :=
  [rlit "[", .cap 1 [.cls true [']'] .plus], rlit "](", .cap 2 [.cls true [')'] .plus],
    rlit ")"]

/-- `https?://[^\s<>"]+` (urlPattern of `extractURLs`). -/
def rawURLPattern : List RElem :=
  [rlit "http", optS, rlit "://", .cls true (wsChars ++ ['<', '>', '"']) .plus]

/-- `https?://jsr\.io/(@[^/]+/([^/\s]+))`. -/
def jsrURLPat : List RElem :=
  [rlit "http", optS, rlit "://jsr.io/",
    .cap 1 [rlit "@", .cls true ['/'] .plus, rlit "/",
      .cap 2 [.cls true ('/' :: wsChars) .plus]]]

/-- `jsr add (@[^\s]+)`. -/
def jsrCmdPat : List RElem :=
  [rlit "jsr add ", .cap 1 [rlit "@", .cls true wsChars .plus]]

/-- `deno add jsr:(@[^\s]+)`. -/
def denoCmdPat : List RElem :=
  [rlit "deno add jsr:", .cap 1 [rlit "@", .cls true wsChars .plus]]

/-- `https?://(?:www\.)?npmjs\.com/package/([^/\s]+)`. -/
def npmURLPat : List RElem :=
  [rlit "http", optS, rlit "://", optWWW, rlit "npmjs.com/package/",
    .cap 1 [.cls true ('/' :: wsChars) .plus]]

/-- `(?:npm|yarn|pnpm) (?:add|install|create) ([^@\s]+)`. -/
def npmCmdPat : List RElem :=
  [.alt [[rlit "npm"], [rlit "yarn"], [rlit "pnpm"]], rlit " ",
    .alt [[rlit "add"], [rlit "install"], [rlit "create"]], rlit " ",
    .cap 1 [.cls true ('@' :: wsChars) .plus]]

/-- `https?://pkg\.go\.dev/(?:badge/)?([^\s\.]+)(?:\.svg)?`. -/
def goURLPat : List RElem :=
  [rlit "http", optS, rlit "://pkg.go.dev/", .optg [rlit "badge/"],
    .cap 1 [.cls true (wsChars ++ ['.']) .plus], .optg [rlit ".svg"]]

/-- `go (?:get|install|test)(?:\s-u)? ([^@\s]+)`. -/
def goCmdPat : List RElem :=
  [rlit "go ", .alt [[rlit "get"], [rlit "install"], [rlit "test"]],
    .optg [.cls false wsChars .one, rlit "-u"], rlit " ",
    .cap 1 [.cls true ('@' :: wsChars) .plus]]

/-- `https?://(?:www\.)?crates\.io/crates/([^/\s]+)`. -/
def cratesURLPat : List RElem :=
  [rlit "http", optS, rlit "://", optWWW, rlit "crates.io/crates/",
    .cap 1 [.cls true ('/' :: wsChars) .plus]]

/-- `cargo add ([^@\s]+)`. -/
def cratesCmdPat : List RElem :=
  [rlit "cargo add ", .cap 1 [.cls true ('@' :: wsChars) .plus]]

/-- `https?://(?:www\.)?rubygems\.org/gems/([^/\s]+)`. -/
def gemsURLPat : List RElem :=
  [rlit "http", optS, rlit "://", optWWW, rlit "rubygems.org/gems/",
    .cap 1 [.cls true ('/' :: wsChars) .plus]]

/-- `gem install ([^@\s]+)`. -/
def gemsCmdPat : List RElem :=
  [rlit "gem install ", .cap 1 [.cls true ('@' :: wsChars) .plus]]

/-- `https?://(?:www\.)?pypi\.org/project/([^/\s]+)`. -/
def pypiURLPat : List RElem :=
  [rlit "http", optS, rlit "://", optWWW, rlit "pypi.org/project/",
    .cap 1 [.cls true ('/' :: wsChars) .plus]]

/-- `pip install ([^@=\s]+)`. -/
def pypiCmdPat : List RElem :=
  [rlit "pip install ", .cap 1 [.cls true ('@' :: '=' :: wsChars) .plus]]

/-- `https?://(?:www\.)?packagist\.org/packages/([^/\s]+/[^/\s]+)`. -/
def packagistURLPat : List RElem :=
  [rlit "http", optS, rlit "://", optWWW, rlit "packagist.org/packages/",
    .cap 1 [.cls true ('/' :: wsChars) .plus, rlit "/",
      .cls true ('/' :: wsChars) .plus]]

/-- `composer (?:require|install) ([^@\s]+)`. -/
def packagistCmdPat : List RElem :=
  [rlit "composer ", .alt [[rlit "require"], [rlit "install"]], rlit " ",
    .cap 1 [.cls true ('@' :: wsChars) .plus]]

/-- Embeds `sourcePattern` of src/unnamed/part_009. -/
structure SourcePattern where
  type : SourceType
  urlPat : Option (List RElem)
  cmdPat : Option (List RElem)

/-- Embeds the `sourcePatterns` table of src/unnamed/part_009, in order. -/
def sourcePatterns : List SourcePattern :=
  [⟨TypeJSR, some jsrURLPat, some jsrCmdPat⟩,
   ⟨TypeJSR, none, some denoCmdPat⟩,
   ⟨TypeNPM, some npmURLPat, some npmCmdPat⟩,
   ⟨TypeGoPkgDev, some goURLPat, some goCmdPat⟩,
   ⟨TypeCratesIo, some cratesURLPat, some cratesCmdPat⟩,
   ⟨TypeRubyGems, some gemsURLPat, some gemsCmdPat⟩,
   ⟨TypePyPI, some pypiURLPat, some pypiCmdPat⟩,
   ⟨TypePackagist, some packagistURLPat, some packagistCmdPat⟩]

/-! ## Extraction (src/unnamed/part_009) -/

/-- Inner loop of `extractSourcesFromURLs`: the first pattern whose
`URLPattern` matches the URL yields the candidate, then `break`. -/
def extractFromOneURL : List SourcePattern → List Char → Option RelatedReference
  | [], _ => none
  | p :: ps, url =>
      match p.urlPat with
      | none => extractFromOneURL ps url
      | some re =>
          match findSubmatch1 re url with
          | some pkg => some ⟨p.type, String.mk pkg, "", "document"⟩
          | none => extractFromOneURL ps url

/-- Embeds `extractSourcesFromURLs`. -/
def extractSourcesFromURLs (urls : List (List Char)) : List RelatedReference :=
  urls.filterMap (extractFromOneURL sourcePatterns)

/-- Embeds `extractSourcesFromCommands`: every command pattern is run over
the whole content with `FindAllStringSubmatch`. -/
def extractSourcesFromCommands (content : List Char) : List RelatedReference :=
  sourcePatterns.flatMap (fun p =>
    match p.cmdPat with
    | none => []
    | some re =>
        (findAllIn re content).map
          (fun f => ⟨p.type, String.mk (group 1 f), "", "document"⟩))

/-- `strings.Split(u, "#")[0]`: drop everything from the first `#` on. -/
def stripFragment (u : List Char) : List Char :=
  u.takeWhile (fun c => c ≠ '#')

/-- The `seen`-map guarded append of `extractURLs` (the `seen` map marks
exactly the URLs already appended, so membership in the output so far is
the same check). -/
def addURLs (urls : List (List Char)) (us : List (List Char)) : List (List Char) :=
  us.foldl (fun acc u => if acc.contains u then acc else acc ++ [u]) urls

/-- Embeds `extractURLs`: split into lines; lines containing a markdown
link yield the link targets, other lines yield raw URLs; fragments are
stripped and first-seen order kept with duplicates suppressed. -/
def extractURLs (content : List Char) : List (List Char) :=
  (content.splitOn '\n').foldl
    (fun urls line =>
      if goContains line "](".data then
        addURLs urls ((findAllIn mdPattern line).map (fun f => stripFragment (group 2 f)))
      else
        addURLs urls ((findAllIn rawURLPattern line).map (fun f => stripFragment f.matched)))
    []

/-- The identifying string `lo.Ternary(source.URL != "", source.URL, source.Path)`. -/
def refKey (s : RelatedReference) : String :=
  if s.url ≠ "" then s.url else s.path

/-- The loop of `filterAndDeduplicate`, with `seen` as the list of keys
already kept (the Go `seen` map is written exactly when a candidate is
kept). -/
def fadLoop (currentPackage : String) :
    List RelatedReference → List String → List RelatedReference
  | [], _ => []
  | s :: rest, seen =>
      let key := refKey s
      if seen.contains key then fadLoop currentPackage rest seen
      else if goContains key.data currentPackage.data then
        s :: fadLoop currentPackage rest (key :: seen)
      else fadLoop currentPackage rest seen

/-- Embeds `filterAndDeduplicate` of src/unnamed/part_009. -/
def filterAndDeduplicate (sources : List RelatedReference)
    (currentPackage : String) : List RelatedReference :=
  fadLoop currentPackage sources []

/-- Keep the first occurrence of each key. -/
def dedupByKeyFirst : List RelatedReference → List String → List RelatedReference
  | [], _ => []
  | s :: rest, seen =>
      if seen.contains (refKey s) then dedupByKeyFirst rest seen
      else s :: dedupByKeyFirst rest (refKey s :: seen)

/-- The specification-side restatement of §4.3's filtering rule: keep
exactly the candidates whose identifying string contains the current
package identifier, deduplicated by that string keeping the first
occurrence. -/
def filterDedupSpec (sources : List RelatedReference)
    (currentPackage : String) : List RelatedReference :=
  dedupByKeyFirst
    (sources.filter (fun s => goContains (refKey s).data currentPackage.data)) []

/-- Embeds `extractRelatedSources` of src/unnamed/part_009. -/
def extractRelatedSources (content : List Char) (currentPackage : String) :
    List RelatedReference :=
  filterAndDeduplicate
    (extractSourcesFromURLs (extractURLs content) ++ extractSourcesFromCommands content)
    currentPackage

/-! ## Source detection (alias table from src/api/detect.go; the detection
function that can fail, `detectInitialQuery`, is called from
src/unnamed/part_004 and src/cli/run.go but its definition file is not in
the tree, so it is modelled from the spec, §4.1). -/

/-- Embeds the `languageAliases` table of src/api/detect.go. -/
def languageAliases : List (String × SourceType) :=
  [("go", TypeGoPkgDev), ("golang", TypeGoPkgDev),
   ("js", TypeNPM), ("javascript", TypeNPM), ("npm", TypeNPM), ("node", TypeNPM),
   ("nodejs", TypeNPM), ("ts", TypeNPM), ("tsx", TypeNPM), ("typescript", TypeNPM),
   ("jsr", TypeJSR),
   ("rust", TypeCratesIo), ("rs", TypeCratesIo), ("crates", TypeCratesIo),
   ("ruby", TypeRubyGems), ("rb", TypeRubyGems), ("gem", TypeRubyGems),
   ("python", TypePyPI), ("py", TypePyPI), ("pypi", TypePyPI), ("pip", TypePyPI),
   ("php", TypePackagist), ("packagist", TypePackagist), ("composer", TypePackagist)]

/-- The detection error kind of §4.1: an invalid package path shape. -/
inductive DetectErr where
  | invalidPackagePath
deriving Repr, DecidableEq

/-- Ensuring a leading `@` on a JSR path (§4.1 step 2). -/
def ensureLeadingAt (p : String) : String :=
  if goStartsWith p.data "@".data then p else "@" ++ p

/-- Go's `strings.TrimPrefix`. -/
def trimPre (s pre : String) : String :=
  if goStartsWith s.data pre.data then String.mk (s.data.drop pre.data.length) else s

/-- The §4.1 step-4 heuristic: a GitHub/GitLab path with at least three
segments whose repository segment looks like a Go project. -/
def goRepoHeuristic (pkgPath : String) : Bool :=
  let parts := pkgPath.data.splitOn '/'
  match parts with
  | _ :: _ :: repo :: _ =>
      let repoName := repo.map Char.toLower
      goStartsWith repoName "go-".data ||
        "-go".data.isSuffixOf repoName ||
        goContains repoName ".go".data
  | _ => false

/-- Modelled from the spec: `detectInitialQuery`, the detection function
called by `NewInitialQuery` (src/unnamed/part_004) and therefore by the
CLI; its defining file is absent from the tree.  Per §4.1: resolve the
language hint through the alias table; JSR requires exactly one `/` after
ensuring a leading `@` and otherwise fails with an `InvalidPackagePath`
kind; the other hinted registry types pass the path through; known domain
prefixes resolve to their types (GitHub/GitLab stripped); a Go-looking
repository path redirects to pkg.go.dev; otherwise the type is unknown. -/
def detectInitialQuery (pkgPath lang : String) : Except DetectErr Reference :=
  let hinted : SourceType :=
    if lang ≠ "" then (languageAliases.lookup lang).getD TypeUnknown else TypeUnknown
  if hinted == TypeJSR then
    let p := ensureLeadingAt pkgPath
    if p.data.count '/' == 1 then .ok ⟨TypeJSR, p⟩
    else .error .invalidPackagePath
  else if hinted == TypeNPM then .ok ⟨TypeNPM, pkgPath⟩
  else if hinted == TypeCratesIo then .ok ⟨TypeCratesIo, pkgPath⟩
  else if hinted == TypeRubyGems then .ok ⟨TypeRubyGems, pkgPath⟩
  else if hinted == TypePyPI then .ok ⟨TypePyPI, pkgPath⟩
  else if hinted == TypePackagist then .ok ⟨TypePackagist, pkgPath⟩
  else if hinted == TypeGoPkgDev || goStartsWith pkgPath.data "pkg.go.dev/".data then
    .ok ⟨TypeGoPkgDev, pkgPath⟩
  else if (hinted == TypeGitHub || goStartsWith pkgPath.data "github.com/".data ||
      hinted == TypeGitLab || goStartsWith pkgPath.data "gitlab.com/".data) &&
      goRepoHeuristic pkgPath then
    .ok ⟨TypeGoPkgDev, pkgPath⟩
  else if goStartsWith pkgPath.data "github.com/".data then
    .ok ⟨TypeGitHub, trimPre pkgPath "github.com/"⟩
  else if goStartsWith pkgPath.data "gitlab.com/".data then
    .ok ⟨TypeGitLab, trimPre pkgPath "gitlab.com/"⟩
  else .ok ⟨TypeUnknown, pkgPath⟩

/-! ## Investigator resolution (src/api/sourceresolver/sourceresolver.go)
and the investigation engine (spec §4.5; the engine's defining file —
`type Investigation`, `NewInvestigation`, `Do` — is not in the tree and is
modelled from the spec). -/

/-- The concrete investigator implementations named by the resolver. -/
inductive InvestigatorTag where
  | gitHubInvestigator
  | gitLabInvestigator
  | npmInvestigator
  | goPkgDevInvestigator
  | cratesIOInvestigator
  | rubyGemsInvestigator
  | pyPIInvestigator
  | packagistInvestigator
  | jsrInvestigator
  | websiteInvestigator (type : SourceType)
deriving Repr, DecidableEq

/-- Embeds `sourceresolver.Investigator`: the Go `switch` over
`source.Type`; `default` returns nil, modelled as `none`. -/
def Investigator (s : SourceType) : Option InvestigatorTag :=
  if s == TypeGitHub then some .gitHubInvestigator
  else if s == TypeGitLab then some .gitLabInvestigator
  else if s == TypeNPM then some .npmInvestigator
  else if s == TypeGoPkgDev then some .goPkgDevInvestigator
  else if s == TypeCratesIo then some .cratesIOInvestigator
  else if s == TypeRubyGems then some .rubyGemsInvestigator
  else if s == TypePyPI then some .pyPIInvestigator
  else if s == TypePackagist then some .packagistInvestigator
  else if s == TypeJSR then some .jsrInvestigator
  else if s == TypeHomepage || s == TypeDocumentation then some (.websiteInvestigator s)
  else none

/-- Go map assignment `m[k] = v` on the association-list model: replace in
place or append. -/
def mapSet : List (SourceType × Data) → SourceType → Data → List (SourceType × Data)
  | [], k, v => [(k, v)]
  | (k', v') :: rest, k, v =>
      if k' == k then (k, v) :: rest else (k', v') :: mapSet rest k v

/-- How a run of the engine's loop can abort. -/
inductive EngineAbort where
  | missingInvestigator (t : SourceType)
  | outOfFuel
deriving Repr, DecidableEq

/-- Modelled from the spec: the crawl loop of `Investigation.Do` (§4.5),
whose defining file is absent from the tree.  The fetch-through-cache of
step 3 is abstracted by `fetch`; `fuel` bounds the number of iterations
(running out is a modelling artifact, reported as `outOfFuel`).  Step 2:
a reference whose type has no Investigator aborts the whole run, keeping
the data collected so far.  Step 4: a failed fetch is recorded under the
type with only the error set.  Step 5: a successful fetch is stamped with
the reference and stored, and its related sources are enqueued unless
their type is already collected (the sufficiency predicate always says
continue). -/
def doLoop (fetch : InvestigatorTag → Reference → Bool → Except String Data)
    (force : Bool) :
    Nat → List Reference → List (SourceType × Data) →
      Option EngineAbort × List (SourceType × Data)
  | 0, _, collected => (some .outOfFuel, collected)
  | _ + 1, [], collected => (none, collected)
  | fuel + 1, ref :: queue, collected =>
      match Investigator ref.type with
      | none => (some (.missingInvestigator ref.type), collected)
      | some tag =>
          match fetch tag ref force with
          | .error e =>
              doLoop fetch force fuel queue
                (mapSet collected ref.type { fetchError := some e })
          | .ok d =>
              let stamped := { d with source := ref }
              let collected' := mapSet collected ref.type stamped
              let newRefs := d.relatedSources.filterMap (fun rs =>
                let r := ToSourceReference rs
                if (collected'.lookup r.type).isSome then none else some r)
              doLoop fetch force fuel (queue ++ newRefs) collected'

/-- Modelled from the spec: `Investigation.Do` seeds the queue with the
query's reference and runs the loop; the returned pair is (error,
CollectedData). -/
def InvestigationDo (fetch : InvestigatorTag → Reference → Bool → Except String Data)
    (query : InitialQuery) (fuel : Nat) :
    Option EngineAbort × List (SourceType × Data) :=
  doLoop fetch query.forceUpdate fuel [query.sourceRef] []

/-! ## Concrete fixtures used by the theorems -/

/-- A README document of length 10. -/
def doc10 : String := "aaaaaaaaaa"

/-- A README document of length 50. -/
def doc50 : String := "bbbbbbbbbbbbbbbbbbbbbbbbbbbbbbbbbbbbbbbbbbbbbbbbbb"

/-- A README document of length 30. -/
def doc30 : String := "cccccccccccccccccccccccccccccc"

/-- A collected npm entry whose README has length 10. -/
def entry10 : SourceType × Data :=
  (TypeNPM, { source := ⟨TypeNPM, "express"⟩, contents := [("README.md", doc10)] })

/-- A collected GitHub entry whose README has length 50. -/
def entry50 : SourceType × Data :=
  (TypeGitHub, { source := ⟨TypeGitHub, "a/b"⟩, contents := [("README.md", doc50)] })

/-- A collected GitLab entry whose README has length 30. -/
def entry30 : SourceType × Data :=
  (TypeGitLab, { source := ⟨TypeGitLab, "a/b"⟩, contents := [("README.md", doc30)] })

/-- Two collected entries whose READMEs tie in length but differ. -/
def tieA : SourceType × Data :=
  (TypeGitHub, { source := ⟨TypeGitHub, "a/b"⟩, contents := [("README.md", "aa")] })

/-- The other half of the tie. -/
def tieB : SourceType × Data :=
  (TypeNPM, { source := ⟨TypeNPM, "x"⟩, contents := [("README.md", "bb")] })

/-- A fixed initial query for the aggregator fixtures. -/
def q0 : InitialQuery := ⟨⟨TypePyPI, "x"⟩, false⟩

/-- The example text of claim C6, a markdown link to the express package. -/
def exContent : List Char :=
  "[Express](https://www.npmjs.com/package/express)".data

/-! ## Theorems -/

theorem createLoop_snd (l : List (SourceType × Data)) :
    ∀ (readme : String) (links : List Link),
      (createLoop readme links l).2 =
        links ++ l.map (fun e => Link.mk e.2.source.type e.2.browserURL) := by
  induction l with
  | nil => intro readme links; simp [createLoop]
  | cons e rest ih =>
      intro readme links
      obtain ⟨t, d⟩ := e
      simp [createLoop, ih]

theorem createLoop_fst_spec (l : List (SourceType × Data)) :
    ∀ readme : String, ∀ links : List Link,
      readme.length ≤ (createLoop readme links l).1.length ∧
      (∀ p ∈ l, (contentsGet p.2 "README.md").length ≤ (createLoop readme links l).1.length) ∧
      ((createLoop readme links l).1 = readme ∨
        ∃ p ∈ l, (createLoop readme links l).1 = contentsGet p.2 "README.md") := by
  induction l with
  | nil =>
      intro readme links
      exact ⟨le_refl _, by simp, Or.inl rfl⟩
  | cons e rest ih =>
      intro readme links
      obtain ⟨t, d⟩ := e
      by_cases hgt : (contentsGet d "README.md").length > readme.length
      · have heq : createLoop readme links ((t, d) :: rest) =
            createLoop (contentsGet d "README.md")
              (links ++ [⟨d.source.type, d.browserURL⟩]) rest := by
          simp [createLoop, hgt]
        obtain ⟨ha, hb, hc⟩ := ih (contentsGet d "README.md")
          (links ++ [⟨d.source.type, d.browserURL⟩])
        rw [heq]
        refine ⟨by omega, ?_, ?_⟩
        · intro p hp
          rcases List.mem_cons.mp hp with hp | hp
          · rw [hp]; exact ha
          · exact hb p hp
        · rcases hc with hc | ⟨p, hp, hc⟩
          · exact Or.inr ⟨(t, d), List.mem_cons_self _ _, hc⟩
          · exact Or.inr ⟨p, List.mem_cons_of_mem _ hp, hc⟩
      · have heq : createLoop readme links ((t, d) :: rest) =
            createLoop readme (links ++ [⟨d.source.type, d.browserURL⟩]) rest := by
          simp [createLoop, hgt]
        obtain ⟨ha, hb, hc⟩ := ih readme (links ++ [⟨d.source.type, d.browserURL⟩])
        rw [heq]
        refine ⟨ha, ?_, ?_⟩
        · intro p hp
          rcases List.mem_cons.mp hp with hp | hp
          · rw [hp]
            show (contentsGet d "README.md").length ≤ _
            omega
          · exact hb p hp
        · rcases hc with hc | ⟨p, hp, hc⟩
          · exact Or.inl hc
          · exact Or.inr ⟨p, List.mem_cons_of_mem _ hp, hc⟩

theorem createResult_readme_eq (inv : Investigation) :
    (CreateResult inv).readme = (createLoop "" [] inv.collectedData).1 := by
  unfold CreateResult
  cases h : inv.collectedData.lookup inv.query.sourceRef.type <;> simp [h]

theorem createResult_links_eq (inv : Investigation) :
    (CreateResult inv).links = (createLoop "" [] inv.collectedData).2 := by
  unfold CreateResult
  cases h : inv.collectedData.lookup inv.query.sourceRef.type <;> simp [h]

theorem loadEntry_saveEntry_self (store : Store T) (path : String) (e : CEntry T) :
    loadEntry (saveEntry store path e) path = some e := by
  simp [loadEntry, saveEntry, List.lookup]

/-- Claim C2: two successive non-forced `GetOrSet` calls on the same key
within the TTL invoke the generator exactly once — the second returns the
cached value without running it; a later non-forced call whose clock has
moved at least TTL past the stored `CreatedAt` runs the generator again;
and a forced call always runs the generator, whatever the store holds. -/
theorem getOrSet_ttl_roundtrip [Inhabited T] (c : CacheCfg) (store : Store T)
    (now1 now2 now3 : Nat) (key : String) (v1 : T)
    (g2 g3 : Except String T) (s2 s3 : SaveOutcome)
    (hmiss : loadEntry store (cachePath c key) = none)
    (hfresh : now2 - now1 < c.ttl) (hstale : c.ttl ≤ now3 - now1) :
    (GetOrSet c store now1 key (Except.ok v1) .ok false).generatorInvoked = true ∧
    (GetOrSet c store now1 key (Except.ok v1) .ok false).value = v1 ∧
    (GetOrSet c store now1 key (Except.ok v1) .ok false).err = none ∧
    (GetOrSet c (GetOrSet c store now1 key (Except.ok v1) .ok false).store
        now2 key g2 s2 false).generatorInvoked = false ∧
    (GetOrSet c (GetOrSet c store now1 key (Except.ok v1) .ok false).store
        now2 key g2 s2 false).value = v1 ∧
    (GetOrSet c (GetOrSet c store now1 key (Except.ok v1) .ok false).store
        now3 key g3 s3 false).generatorInvoked = true ∧
    (∀ (st : Store T) (now : Nat) (g : Except String T) (sv : SaveOutcome),
      (GetOrSet c st now key g sv true).generatorInvoked = true) := by
  have h1 : GetOrSet c store now1 key (Except.ok v1) .ok false =
      ⟨v1, none, saveEntry store (cachePath c key) ⟨v1, now1⟩, true⟩ := by
    simp [GetOrSet, hmiss]
  refine ⟨by rw [h1], by rw [h1], by rw [h1], ?_, ?_, ?_, ?_⟩
  · rw [h1]
    simp [GetOrSet, loadEntry_saveEntry_self, hfresh]
  · rw [h1]
    simp [GetOrSet, loadEntry_saveEntry_self, hfresh]
  · rw [h1]
    have : ¬ (now3 - now1 < c.ttl) := by omega
    cases g3 <;> cases s3 <;> simp [GetOrSet, loadEntry_saveEntry_self, this]
  · intro st now g sv
    cases g <;> cases sv <;> simp [GetOrSet]

/-- Claim C2 witness: a concrete run of the round trip at TTL 10 with
writes at time 0 and reads at times 5 and 10. -/
theorem getOrSet_ttl_roundtrip_witness :
    loadEntry ([] : Store String) (cachePath ⟨"fetch", "root", 10⟩ "k") = none ∧
    (5 - 0 < 10) ∧ (10 ≤ 10 - 0) ∧
    (GetOrSet ⟨"fetch", "root", 10⟩ ([] : Store String) 0 "k"
      (Except.ok "doc") .ok false).generatorInvoked = true :=
  ⟨by decide, by decide, by decide,
    (getOrSet_ttl_roundtrip ⟨"fetch", "root", 10⟩ [] 0 5 10 "k" "doc"
      (Except.ok "x") (Except.ok "y") .ok .ok (by decide) (by decide)
      (by decide)).1⟩

/-- Claim C3: a failing generator propagates its error and leaves the disk
state for the key untouched, so a later non-forced call on the same key
runs the generator again instead of replaying the failure. -/
theorem getOrSet_error_not_cached [Inhabited T] (c : CacheCfg) (store : Store T)
    (now1 now2 : Nat) (key : String) (e : String) (sv1 : SaveOutcome)
    (g2 : Except String T) (sv2 : SaveOutcome)
    (hmiss : loadEntry store (cachePath c key) = none) :
    (GetOrSet c store now1 key (Except.error e) sv1 false).err =
      some (CacheErr.fromGen e) ∧
    (GetOrSet c store now1 key (Except.error e) sv1 false).store = store ∧
    (GetOrSet c store now1 key (Except.error e) sv1 false).generatorInvoked = true ∧
    (GetOrSet c (GetOrSet c store now1 key (Except.error e) sv1 false).store
        now2 key g2 sv2 false).generatorInvoked = true := by
  have h1 : GetOrSet c store now1 key (Except.error e) sv1 false =
      ⟨default, some (CacheErr.fromGen e), store, true⟩ := by
    simp [GetOrSet, hmiss]
  refine ⟨by rw [h1], by rw [h1], by rw [h1], ?_⟩
  rw [h1]
  cases g2 <;> cases sv2 <;> simp [GetOrSet, hmiss]

/-- Claim C3 witness: a concrete failing generation on an empty store. -/
theorem getOrSet_error_not_cached_witness :
    loadEntry ([] : Store String) (cachePath ⟨"fetch", "root", 10⟩ "k") = none ∧
    (GetOrSet ⟨"fetch", "root", 10⟩ ([] : Store String) 0 "k"
      (Except.error "boom") .ok false).store = [] :=
  ⟨by decide,
    (getOrSet_error_not_cached ⟨"fetch", "root", 10⟩ [] 0 1 "k" "boom" .ok
      (Except.ok "v") .ok (by decide)).2.1⟩

/-- Claim C4 counterexample: when the generator succeeds but the save
fails — at either point `saveEntry` can fail — the call does return an
error (`GetOrSet` yields the `saveEntry` error alongside the value),
contradicting the claim that it returns the value with no error. -/
theorem getOrSet_save_failure_errors :
    (GetOrSet ⟨"fetch", "root", 10⟩ ([] : Store String) 0 "k"
      (Except.ok "doc") .failBeforeCreate false).err ≠ none ∧
    (GetOrSet ⟨"fetch", "root", 10⟩ ([] : Store String) 0 "k"
      (Except.ok "doc") .failAfterCreate false).err ≠ none ∧
    (GetOrSet ⟨"fetch", "root", 10⟩ ([] : Store String) 0 "k"
      (Except.ok "doc") .failBeforeCreate false).value = "doc" ∧
    (GetOrSet ⟨"fetch", "root", 10⟩ ([] : Store String) 0 "k"
      (Except.ok "doc") .failAfterCreate false).value = "doc" := by
  refine ⟨?_, ?_, ?_, ?_⟩ <;> decide

/-- Claim C4 (amended): when the generator succeeds but persisting the
entry fails, `GetOrSet` still returns the freshly generated value, but it
returns the persistence error with it — the error is propagated to the
caller, not logged and swallowed — whichever point of `saveEntry` failed. -/
theorem getOrSet_save_failure_value_and_error [Inhabited T] (c : CacheCfg)
    (store : Store T) (now : Nat) (key : String) (v : T) :
    ((GetOrSet c store now key (Except.ok v) .failBeforeCreate true).value = v ∧
     (GetOrSet c store now key (Except.ok v) .failBeforeCreate true).err =
       some CacheErr.fromSave) ∧
    ((GetOrSet c store now key (Except.ok v) .failAfterCreate true).value = v ∧
     (GetOrSet c store now key (Except.ok v) .failAfterCreate true).err =
       some CacheErr.fromSave) := by
  refine ⟨⟨?_, ?_⟩, ⟨?_, ?_⟩⟩ <;> simp [GetOrSet]

/-- Claim C9: over all `source.Type` values — the named constants, the
pseudo-types and arbitrary unknown strings — `IsRegistry` holds exactly on
the seven registry constants, `IsRepository` exactly on the two repository
constants, and no value satisfies both. -/
theorem isRegistry_isRepository_disjoint :
    ∀ s : SourceType,
      (IsRegistry s = true ↔
        (s = TypeGoPkgDev ∨ s = TypeJSR ∨ s = TypeNPM ∨ s = TypeCratesIo ∨
          s = TypeRubyGems ∨ s = TypePyPI ∨ s = TypePackagist)) ∧
      (IsRepository s = true ↔ (s = TypeGitHub ∨ s = TypeGitLab)) ∧
      ¬(IsRegistry s = true ∧ IsRepository s = true) := by
  intro s
  refine ⟨?_, ?_, ?_⟩
  · simp [IsRegistry, Bool.or_eq_true, beq_iff_eq, or_assoc]
  · simp [IsRepository, Bool.or_eq_true, beq_iff_eq]
  · rintro ⟨hreg, hrep⟩
    simp only [IsRegistry, Bool.or_eq_true, beq_iff_eq] at hreg
    simp only [IsRepository, Bool.or_eq_true, beq_iff_eq] at hrep
    rcases hrep with h | h <;> subst h <;>
      simp_all [TypeGitHub, TypeGitLab, TypeGoPkgDev, TypeJSR, TypeNPM,
        TypeCratesIo, TypeRubyGems, TypePyPI, TypePackagist]

/-- Claim C10: cache key normalization is idempotent; the output of
`normalizeKey` contains only characters from the allowed class
`[a-zA-Z0-9-_./]` and contains neither `..` nor `//`, so normalizing a
second time changes nothing. -/
theorem normalizeKey_idem :
    ∀ k : List Char,
      (normalizeKey k).all allowedRune = true ∧
      hasPair '.' (normalizeKey k) = false ∧
      hasPair '/' (normalizeKey k) = false ∧
      normalizeKey (normalizeKey k) = normalizeKey k := by
  intro k
  exact ⟨all_allowed_normalizeKey k, hasPair_dot_normalizeKey k,
    hasPair_slash_normalizeKey k, normalizeKey_idempotent k⟩

/-- Claim C5: with language hint `jsr`, a path with no `/` after ensuring a
leading `@` fails detection with the `InvalidPackagePath` kind — in
particular `onlyname` does — while `scope/name` succeeds as the JSR
reference with path `@scope/name`. -/
theorem detect_jsr_validation :
    (∀ p : String, (ensureLeadingAt p).data.count '/' = 0 →
      detectInitialQuery p "jsr" = Except.error DetectErr.invalidPackagePath) ∧
    detectInitialQuery "onlyname" "jsr" = Except.error DetectErr.invalidPackagePath ∧
    detectInitialQuery "scope/name" "jsr" =
      Except.ok ⟨TypeJSR, "@scope/name"⟩ := by
  refine ⟨?_, by rfl, by rfl⟩
  intro p hcount
  simp only [detectInitialQuery]
  have halias : (languageAliases.lookup "jsr").getD TypeUnknown = TypeJSR := by decide
  simp only [ne_eq, String.reduceEq, not_false_eq_true, if_true, halias]
  have : ((ensureLeadingAt p).data.count '/' == 1) = false := by
    simp [hcount]
  simp [TypeJSR, this]

/-- Claim C5 witness: the failing branch applied to the concrete path
`onlyname`. -/
theorem detect_jsr_validation_witness :
    (ensureLeadingAt "onlyname").data.count '/' = 0 ∧
    detectInitialQuery "onlyname" "jsr" = Except.error DetectErr.invalidPackagePath :=
  ⟨by decide, detect_jsr_validation.1 "onlyname" (by decide)⟩

/-- Claim C8: when the engine dequeues a reference whose type the resolver
maps to no Investigator, the whole run aborts with an error and
`CollectedData` keeps exactly what was collected before; when that happens
on the seed reference, `CollectedData` is left empty. -/
theorem engine_missing_investigator_aborts :
    (∀ (fetch : InvestigatorTag → Reference → Bool → Except String Data)
        (force : Bool) (fuel : Nat) (r : Reference) (queue : List Reference)
        (collected : List (SourceType × Data)),
      Investigator r.type = none →
      doLoop fetch force (fuel + 1) (r :: queue) collected =
        (some (EngineAbort.missingInvestigator r.type), collected)) ∧
    (∀ (fetch : InvestigatorTag → Reference → Bool → Except String Data)
        (q : InitialQuery) (fuel : Nat),
      Investigator q.sourceRef.type = none →
      InvestigationDo fetch q (fuel + 1) =
        (some (EngineAbort.missingInvestigator q.sourceRef.type), [])) := by
  constructor
  · intro fetch force fuel r queue collected h
    simp [doLoop, h]
  · intro fetch q fuel h
    simp [InvestigationDo, doLoop, h]

/-- Claim C8 witness: a seed of source type `bogus`, which the resolver
does not map, aborts immediately with an empty collection. -/
theorem engine_missing_investigator_aborts_witness :
    Investigator "bogus" = none ∧
    InvestigationDo (fun _ _ _ => Except.error "e") ⟨⟨"bogus", "p"⟩, false⟩ 1 =
      (some (EngineAbort.missingInvestigator "bogus"), []) :=
  ⟨by decide,
    engine_missing_investigator_aborts.2 (fun _ _ _ => Except.error "e")
      ⟨⟨"bogus", "p"⟩, false⟩ 0 (by decide)⟩

theorem fadLoop_eq_dedup_filter (cur : String) (l : List RelatedReference) :
    ∀ seen : List String,
      fadLoop cur l seen =
        dedupByKeyFirst (l.filter (fun s => goContains (refKey s).data cur.data)) seen := by
  induction l with
  | nil => intro seen; rfl
  | cons s rest ih =>
      intro seen
      by_cases hseen : seen.contains (refKey s)
      · by_cases hpred : goContains (refKey s).data cur.data
        · simp only [fadLoop, List.filter_cons, hpred, if_true, dedupByKeyFirst,
            hseen, if_true, ih]
        · simp only [fadLoop, List.filter_cons, hpred, Bool.false_eq_true, if_false,
            hseen, if_true, ih]
      · by_cases hpred : goContains (refKey s).data cur.data
        · simp only [fadLoop, List.filter_cons, hpred, if_true, dedupByKeyFirst,
            hseen, Bool.false_eq_true, if_false, ih]
        · simp only [fadLoop, List.filter_cons, hpred, Bool.false_eq_true, if_false,
            hseen, if_false, ih]

set_option maxRecDepth 10000 in
/-- Claim C6: the related-source extractor keeps a candidate exactly when
its identifying string (URL when non-empty, otherwise Path) contains the
current package identifier as a substring, deduplicating by that string
keeping the first occurrence; on text containing a markdown link to the
express npm page, current package `express` yields exactly one npm
reference and current package `react` yields none. -/
theorem extractor_filter_and_example :
    (∀ (sources : List RelatedReference) (cur : String),
      filterAndDeduplicate sources cur = filterDedupSpec sources cur) ∧
    extractRelatedSources exContent "express" =
      [⟨TypeNPM, "express", "", "document"⟩] ∧
    extractRelatedSources exContent "react" = [] := by
  refine ⟨?_, by decide, by decide⟩
  intro sources cur
  exact fadLoop_eq_dedup_filter cur sources []

set_option maxRecDepth 10000 in
/-- Claim C7: `CreateResult` emits exactly one link per collected entry, in
iteration order, with the link type taken from `Data.Source.Type` and the
URL from `Data.BrowserURL`; hence a collected fetch failure (zero-value
`Source`, absent `BrowserURL`) contributes a link with zero-value type and
nil URL, as on the concrete failed entry below. -/
theorem createResult_links_per_entry :
    (∀ inv : Investigation,
      (CreateResult inv).links =
        inv.collectedData.map (fun e => Link.mk e.2.source.type e.2.browserURL)) ∧
    (CreateResult ⟨⟨⟨TypeNPM, "x"⟩, false⟩,
        [(TypeGitHub, { fetchError := some "boom", fetchedAt := 5 })]⟩).links =
      [Link.mk TypeUnknown none] := by
  refine ⟨?_, by decide⟩
  intro inv
  rw [createResult_links_eq, createLoop_snd]
  simp

set_option maxRecDepth 10000 in
/-- Claim C1 counterexample: with two collected entries whose READMEs tie
in length, the README picked by `CreateResult` depends on the iteration
order of `CollectedData` — the same map contents presented in the two
possible orders give different results — so the tie-break is not the
deterministic, defined order the claim asserts. -/
theorem createResult_tie_order_dependent :
    [tieA, tieB].Perm [tieB, tieA] ∧
    (CreateResult ⟨q0, [tieA, tieB]⟩).readme = "aa" ∧
    (CreateResult ⟨q0, [tieB, tieA]⟩).readme = "bb" ∧
    (CreateResult ⟨q0, [tieA, tieB]⟩).readme ≠
      (CreateResult ⟨q0, [tieB, tieA]⟩).readme :=
  ⟨List.Perm.swap tieB tieA [], by decide, by decide, by decide⟩

/-- Claim C1 (amended): `CreateResult` picks a README of greatest length
among the collected entries (the empty string when none is longer), and on
the 10/50/30 example every iteration order gives the length-50 document —
that case is deterministic because the maximum is unique; ties, however,
keep the first entry in whatever iteration order the map presents (see the
counterexample). -/
theorem createResult_readme_greatest :
    (∀ inv : Investigation,
      (∀ p ∈ inv.collectedData,
        (contentsGet p.2 "README.md").length ≤ (CreateResult inv).readme.length) ∧
      ((CreateResult inv).readme = "" ∨
        ∃ p ∈ inv.collectedData,
          (CreateResult inv).readme = contentsGet p.2 "README.md")) ∧
    (∀ (q : InitialQuery) (l : List (SourceType × Data)),
      l.Perm [entry10, entry50, entry30] →
      (CreateResult ⟨q, l⟩).readme = doc50) := by
  constructor
  · intro inv
    obtain ⟨-, hb, hc⟩ := createLoop_fst_spec inv.collectedData "" []
    rw [createResult_readme_eq]
    exact ⟨hb, hc⟩
  · intro q l hperm
    obtain ⟨-, hb, hc⟩ := createLoop_fst_spec l "" []
    have hreadme : (CreateResult ⟨q, l⟩).readme = (createLoop "" [] l).1 :=
      createResult_readme_eq _
    have h50 : entry50 ∈ l := hperm.mem_iff.mpr (by decide)
    have hlen50 : (contentsGet entry50.2 "README.md").length = 50 := by decide
    have hge : 50 ≤ (createLoop "" [] l).1.length := by
      have := hb entry50 h50
      omega
    rcases hc with hc | ⟨p, hp, hc⟩
    · rw [hc] at hge
      simp at hge
    · have hp3 : p ∈ [entry10, entry50, entry30] := hperm.mem_iff.mp hp
      rw [hreadme, hc]
      rcases List.mem_cons.mp hp3 with hp3 | hp3
      · rw [hp3] at hc
        rw [hp3]
        rw [hc] at hge
        have : (contentsGet entry10.2 "README.md").length = 10 := by decide
        omega
      · rcases List.mem_cons.mp hp3 with hp3 | hp3
        · rw [hp3]; decide
        · rcases List.mem_cons.mp hp3 with hp3 | hp3
          · rw [hp3] at hc
            rw [hp3]
            rw [hc] at hge
            have : (contentsGet entry30.2 "README.md").length = 30 := by decide
            omega
          · simp at hp3

/-- Claim C1 witness (for the amended theorem): the identity iteration
order of the 10/50/30 example yields the length-50 document. -/
theorem createResult_readme_greatest_witness :
    [entry10, entry50, entry30].Perm [entry10, entry50, entry30] ∧
    (CreateResult ⟨q0, [entry10, entry50, entry30]⟩).readme = doc50 :=
  ⟨List.Perm.refl _,
    createResult_readme_greatest.2 q0 [entry10, entry50, entry30] (List.Perm.refl _)⟩

end Miru
